import Mathlib

/-!
# Verification of the retrieval-augmented assistant core

Shallow embedding of the core components of the repository
(document search, conversation window, quiz engine, orchestration)
together with proofs of the specified properties.

Source files referenced throughout:
  `src/document_store.py`, `src/conversation.py`, `src/chat_service.py`,
  `src/db.py`, `src/telegram_bot.py`.
-/

namespace OTBot

/-- A chat message: a role tag (`"system"` / `"user"` / `"assistant"`) and content. -/
structure Msg where
  role : String
  content : String
deriving DecidableEq, Repr

/-- Conversation history state, per chat id.  `ConversationManager._history` in
`src/conversation.py` is a `defaultdict(deque)`: a missing id reads as the empty
history, so the state is modelled as a total map. -/
def ConvState := Int → List Msg

/-- The initial (empty) conversation state. -/
def emptyConv : ConvState := fun _ => []

namespace ConversationManager

/-- `ConversationManager.update` (`src/conversation.py` lines 37-44): append the
user/assistant pair for the chat, then pop `len(history) - max_messages * 2`
messages from the left when that excess is positive.  `List.drop` of a natural
subtraction performs exactly that (drop of `0` when there is no excess). -/
def update (maxMessages : Nat) (st : ConvState) (chatId : Int)
    (userText assistantText : String) : ConvState :=
  fun cid =>
    if cid = chatId then
      let h := st chatId ++ [⟨"user", userText⟩, ⟨"assistant", assistantText⟩]
      h.drop (h.length - maxMessages * 2)
    else st cid

end ConversationManager

/-- One committed turn, flattened to its two role-tagged messages. -/
def pairMsgs (p : String × String) : List Msg :=
  [⟨"user", p.1⟩, ⟨"assistant", p.2⟩]

/-- Flatten a list of user/assistant turns into a message list. -/
def flattenPairs (ps : List (String × String)) : List Msg :=
  ps.foldr (fun p acc => pairMsgs p ++ acc) []

/-- A whole sequence of `Commit` operations on one conversation id. -/
def applyCommits (maxMessages : Nat) (chatId : Int)
    (ops : List (String × String)) (st : ConvState) : ConvState :=
  ops.foldl (fun s p => ConversationManager.update maxMessages s chatId p.1 p.2) st

/-- The history is complete alternating user/assistant pairs. -/
def alternatingPairs : List Msg → Bool
  | [] => true
  | [_] => false
  | u :: a :: rest => u.role == "user" && a.role == "assistant" && alternatingPairs rest

theorem flattenPairs_nil : flattenPairs [] = [] := rfl

theorem flattenPairs_cons (p : String × String) (ps : List (String × String)) :
    flattenPairs (p :: ps) = pairMsgs p ++ flattenPairs ps := rfl

theorem flattenPairs_singleton (p : String × String) :
    flattenPairs [p] = pairMsgs p := by
  simp [flattenPairs_cons, flattenPairs_nil]

theorem flattenPairs_append (a b : List (String × String)) :
    flattenPairs (a ++ b) = flattenPairs a ++ flattenPairs b := by
  induction a with
  | nil => rfl
  | cons p ps ih => simp [flattenPairs_cons, ih, List.append_assoc]

theorem flattenPairs_length (ps : List (String × String)) :
    (flattenPairs ps).length = 2 * ps.length := by
  induction ps with
  | nil => rfl
  | cons p ps ih => simp [flattenPairs_cons, ih, pairMsgs]; omega

theorem alternatingPairs_flattenPairs (ps : List (String × String)) :
    alternatingPairs (flattenPairs ps) = true := by
  induction ps with
  | nil => rfl
  | cons p ps ih => simpa [flattenPairs_cons, pairMsgs, alternatingPairs] using ih

theorem applyCommits_snoc (N : Nat) (cid : Int) (ops : List (String × String))
    (p : String × String) (st : ConvState) :
    applyCommits N cid (ops ++ [p]) st =
      ConversationManager.update N (applyCommits N cid ops st) cid p.1 p.2 := by
  simp [applyCommits, List.foldl_append]

theorem update_self (N : Nat) (st : ConvState) (cid : Int) (u a : String) :
    ConversationManager.update N st cid u a cid =
      (st cid ++ pairMsgs (u, a)).drop ((st cid ++ pairMsgs (u, a)).length - N * 2) := by
  simp [ConversationManager.update, pairMsgs]

/-- Dropping two messages from a flattened pair list drops the first pair. -/
theorem drop_two_flattenPairs (p : String × String) (ps : List (String × String)) :
    (flattenPairs (p :: ps)).drop 2 = flattenPairs ps := by
  simp [flattenPairs_cons, pairMsgs]

/-- Core history-window lemma: after any sequence of commits starting from the empty
state, the stored history is exactly the flattening of the last `N` committed turns. -/
theorem applyCommits_eq_flatten (N : Nat) (cid : Int) (ops : List (String × String)) :
    applyCommits N cid ops emptyConv cid =
      flattenPairs (ops.drop (ops.length - N)) := by
  induction ops using List.reverseRecOn with
  | nil => simp [applyCommits, emptyConv, flattenPairs]
  | append_singleton ops p ih =>
    rw [applyCommits_snoc, update_self, ih]
    have hps : pairMsgs (p.1, p.2) = flattenPairs [p] := by
      simp [flattenPairs_singleton]
    rw [hps, ← flattenPairs_append, flattenPairs_length]
    have hlen : (ops.drop (ops.length - N) ++ [p]).length
        = min N ops.length + 1 := by
      simp [List.length_drop]
      omega
    rw [hlen]
    by_cases hN : N = 0
    · subst hN
      have h1 : 2 * (min 0 ops.length + 1) - 0 * 2 = 2 := by omega
      have h2 : ops.length - 0 = ops.length := by omega
      have h3 : (ops ++ [p]).length - 0 = ops.length + 1 := by simp
      have h4 : (ops ++ [p]).drop (ops.length + 1) = [] := by
        apply List.drop_eq_nil_of_le; simp
      rw [h1, h2, h3, List.drop_length, h4]
      simpa [flattenPairs_nil] using drop_two_flattenPairs p []
    · by_cases h : ops.length < N
      · have h1 : 2 * (min N ops.length + 1) - N * 2 = 0 := by omega
        have h2 : ops.length - N = 0 := by omega
        have h3 : (ops ++ [p]).length - N = 0 := by simp; omega
        rw [h1, List.drop_zero, h2, h3, List.drop_zero, List.drop_zero]
      · push_neg at h
        have h1 : 2 * (min N ops.length + 1) - N * 2 = 2 := by omega
        rw [h1]
        rcases hd : ops.drop (ops.length - N) with _ | ⟨q, rest⟩
        · exfalso
          have := congrArg List.length hd
          simp [List.length_drop] at this
          omega
        · have hrest : rest = ops.drop (ops.length + 1 - N) := by
            have e1 : (ops.drop (ops.length - N)).drop 1 = rest := by
              rw [hd]; rfl
            rw [List.drop_drop] at e1
            rw [← e1]
            congr 1
            omega
          have htail : (ops ++ [p]).drop ((ops ++ [p]).length - N)
              = rest ++ [p] := by
            have hle : (ops ++ [p]).length - N ≤ ops.length := by
              simp; omega
            rw [List.drop_append_of_le_length hle, hrest]
            congr 2
            simp
          rw [htail, List.cons_append, drop_two_flattenPairs]

/-- C2: for every conversation id and every sequence of `Commit` operations, the
stored history always holds at most `2 × maxHistoryMessages` messages, always as
complete user/assistant pairs (alternating, starting with a user message), with the
oldest pairs evicted first (the history is exactly the flattening of the most recent
turns); in particular, `Commit` called `2×N+1` times on one conversation with
`maxHistoryMessages = N` leaves exactly `2×N` messages. -/
theorem C2_conversation_window (N : Nat) (cid : Int) (ops : List (String × String)) :
    applyCommits N cid ops emptyConv cid
        = flattenPairs (ops.drop (ops.length - N)) ∧
    (applyCommits N cid ops emptyConv cid).length ≤ 2 * N ∧
    alternatingPairs (applyCommits N cid ops emptyConv cid) = true ∧
    (ops.length = 2 * N + 1 →
      (applyCommits N cid ops emptyConv cid).length = 2 * N) := by
  have he := applyCommits_eq_flatten N cid ops
  refine ⟨he, ?_, ?_, ?_⟩
  · rw [he, flattenPairs_length, List.length_drop]; omega
  · rw [he]; exact alternatingPairs_flattenPairs _
  · intro hlen
    rw [he, flattenPairs_length, List.length_drop, hlen]; omega

/-- Witness for C2 at a concrete input: three commits with `maxHistoryMessages = 1`
leave exactly two messages. -/
theorem C2_conversation_window_witness :
    (applyCommits 1 0 [("a", "b"), ("c", "d"), ("e", "f")] emptyConv 0).length = 2 * 1 :=
  (C2_conversation_window 1 0 [("a", "b"), ("c", "d"), ("e", "f")]).2.2.2 (by decide)

/-- A retrieved document chunk (`DocumentChunk` in `src/document_store.py`).
`path` holds the source file's display name (`path.name` is the only part of the
Python `Path` the verified operations render); `score` is the call-specific search
score `matches / tokenCount`, modelled as an exact rational. -/
structure DocumentChunk where
  path : String
  text : String
  score : ℚ := 0
deriving DecidableEq, Repr

/-- Rendering of one context snippet inside the system prompt
(`src/conversation.py` line 28). -/
def contextSnippet (idx : Nat) (c : DocumentChunk) : String :=
  "[" ++ toString idx ++ "] Источник: " ++ c.path ++ "\n" ++ c.text.trim

/-- The rendered context block appended to the system prompt
(`src/conversation.py` lines 23-30): empty when there are no chunks. -/
def renderContext (chunks : List DocumentChunk) : String :=
  if chunks.isEmpty then ""
  else
    "\n\nДоступные выдержки из нормативной базы:\n" ++
      String.intercalate "\n---\n"
        ((chunks.enumFrom 1).map fun p => contextSnippet p.1 p.2)

/-- `ConversationManager.build_messages` (`src/conversation.py` lines 15-35),
returning the assembled list together with the (unchanged) conversation state:
the only Python-level mutation is the `defaultdict` insertion of an empty deque
for a fresh id, which is invisible in the total-map state model. -/
def build_messages (st : ConvState) (chatId : Int) (userText systemPrompt : String)
    (contextChunks : List DocumentChunk) : List Msg × ConvState :=
  (⟨"system", systemPrompt ++ renderContext contextChunks⟩
      :: (st chatId ++ [⟨"user", userText⟩]), st)

/-- C8: `BuildPrompt` returns exactly one system message (base prompt plus the
rendered context block, omitted entirely when there are no chunks), followed by
the stored history in original order, followed by the new user message, and does
not mutate any conversation state. -/
theorem C8_build_prompt (st : ConvState) (cid : Int) (userText systemPrompt : String)
    (chunks : List DocumentChunk) :
    (build_messages st cid userText systemPrompt chunks).2 = st ∧
    (build_messages st cid userText systemPrompt chunks).1 =
      Msg.mk "system" (systemPrompt ++ renderContext chunks)
        :: (st cid ++ [Msg.mk "user" userText]) ∧
    (chunks = [] → renderContext chunks = "") ∧
    (chunks ≠ [] →
      renderContext chunks =
        "\n\nДоступные выдержки из нормативной базы:\n" ++
          String.intercalate "\n---\n"
            ((chunks.enumFrom 1).map fun p =>
              "[" ++ toString p.1 ++ "] Источник: " ++ p.2.path ++ "\n"
                ++ p.2.text.trim)) := by
  refine ⟨rfl, rfl, ?_, ?_⟩
  · intro h; subst h; rfl
  · intro h
    have hne : chunks.isEmpty = false := by
      cases chunks with
      | nil => exact absurd rfl h
      | cons a l => rfl
    simp [renderContext, contextSnippet, hne]

/-- Witness for C8 at concrete inputs. -/
theorem C8_build_prompt_witness :
    renderContext ([] : List DocumentChunk) = "" ∧
    (build_messages emptyConv 0 "hi" "sys" []).2 = emptyConv :=
  ⟨(C8_build_prompt emptyConv 0 "hi" "sys" []).2.2.1 rfl,
   (C8_build_prompt emptyConv 0 "hi" "sys" []).1⟩

/-- `_format_context_footer` (`src/telegram_bot.py` lines 345-352): keep only the
chunks whose score is at least `0.3`, in order; return the empty string when none
remain, otherwise the rendered sources footer.  (`0.3` is modelled exactly as
`3/10`; for the scores `matches/tokenCount` that actually occur the float
comparison in the source agrees with the rational one.) -/
def formatContextFooter (ctxs : List DocumentChunk) : String :=
  let filtered := ctxs.filter (fun c => (3 : ℚ) / 10 ≤ c.score)
  if filtered.isEmpty then ""
  else
    "\n\nИсточники: " ++
      String.intercalate ", "
        ((filtered.enumFrom 1).map fun p => "[" ++ toString p.1 ++ "] " ++ p.2.path)

/-- `handle_text` reply assembly (`src/telegram_bot.py` lines 663-667): the
delivered message is the model reply concatenated with the citation footer. -/
def textReplyWithFooter (reply : String) (ctxs : List DocumentChunk) : String :=
  reply ++ formatContextFooter ctxs

/-- C10: the citation footer appended to a delivered reply lists only the
retrieved chunks with score ≥ 0.3, in retrieval order; when no chunk reaches the
threshold the footer is omitted entirely even though the context list returned to
the caller may be non-empty. -/
theorem C10_citation_footer (reply : String) (ctxs : List DocumentChunk) :
    ((∀ c ∈ ctxs, c.score < 3 / 10) → textReplyWithFooter reply ctxs = reply) ∧
    (ctxs.filter (fun c => (3 : ℚ) / 10 ≤ c.score) ≠ [] →
      formatContextFooter ctxs =
        "\n\nИсточники: " ++
          String.intercalate ", "
            (((ctxs.filter (fun c => (3 : ℚ) / 10 ≤ c.score)).enumFrom 1).map
              fun p => "[" ++ toString p.1 ++ "] " ++ p.2.path)) ∧
    List.Sublist (ctxs.filter (fun c => (3 : ℚ) / 10 ≤ c.score)) ctxs ∧
    textReplyWithFooter reply ctxs = reply ++ formatContextFooter ctxs := by
  refine ⟨?_, ?_, List.filter_sublist _, rfl⟩
  · intro h
    have hf : ctxs.filter (fun c => (3 : ℚ) / 10 ≤ c.score) = [] := by
      rw [List.filter_eq_nil_iff]
      intro c hc
      simpa using not_le.mpr (h c hc)
    simp [textReplyWithFooter, formatContextFooter, hf]
  · intro h
    have hne : (ctxs.filter (fun c => (3 : ℚ) / 10 ≤ c.score)).isEmpty = false := by
      cases hmm : ctxs.filter (fun c => (3 : ℚ) / 10 ≤ c.score) with
      | nil => exact absurd hmm h
      | cons a l => rfl
    simp [formatContextFooter, hne]

/-- Witness for C10: a single below-threshold chunk yields a bare reply. -/
theorem C10_citation_footer_witness :
    textReplyWithFooter "r" [⟨"doc.txt", "text", 1 / 4⟩] = "r" :=
  (C10_citation_footer "r" [⟨"doc.txt", "text", 1 / 4⟩]).1 (by
    intro c hc
    rw [List.mem_singleton] at hc
    subst hc
    norm_num)

/-- A stored quiz session (`QuizSession` dataclass in `src/db.py`). -/
structure QuizSession where
  question : String
  options : List String
  correctIndex : Int
  explanation : Option String
  sources : List String
  questionsAnswered : Nat
  correctAnswers : Nat
deriving DecidableEq, Repr

/-- The user-visible outcome of an answer-grading attempt. -/
inductive GradeOutcome where
  | noActiveSession
  | answerIndexOutOfRange
  | graded (correct : Bool)
deriving DecidableEq, Repr

/-- Grading step of `_handle_quiz_answer_selection` (`src/telegram_bot.py` lines
475-521) combined with `BotDatabase.update_quiz_stats` (`src/db.py` lines 342-355):
no stored session → "Активный тест не найден" reply, no state change; chosen index
outside `range(len(options))` → "Выберите вариант ответа от 1 до 4" reply, no state
change; otherwise compare with `correct_index` and apply
`update_quiz_stats(answered_delta=1, correct_delta=1 if correct else 0)`.  (The
follow-up generation of the next question is a separate step, modelled by
`send_quiz_question` below.) -/
def gradeAnswer (sess : Option QuizSession) (chosenIndex : Int) :
    GradeOutcome × Option QuizSession :=
  match sess with
  | none => (.noActiveSession, none)
  | some s =>
    if chosenIndex < 0 ∨ (s.options.length : Int) ≤ chosenIndex then
      (.answerIndexOutOfRange, some s)
    else
      let correct : Bool := chosenIndex == s.correctIndex
      (.graded correct,
        some { s with
          questionsAnswered := s.questionsAnswered + 1,
          correctAnswers := s.correctAnswers + (if correct then 1 else 0) })

/-- C3: grading with no stored session fails with the no-active-session outcome and
changes nothing; grading with an out-of-range chosen index fails with the
out-of-range outcome and leaves both counters (indeed the whole session) unchanged;
otherwise grading increments `questionsAnswered` by exactly 1 and increments
`correctAnswers` by exactly 1 iff the chosen index equals the session's
`correctIndex`, leaving the question content unchanged. -/
theorem C3_grading (sess : Option QuizSession) (chosenIndex : Int) :
    (sess = none → gradeAnswer sess chosenIndex = (.noActiveSession, none)) ∧
    (∀ s, sess = some s →
      (chosenIndex < 0 ∨ (s.options.length : Int) ≤ chosenIndex) →
      gradeAnswer sess chosenIndex = (.answerIndexOutOfRange, some s)) ∧
    (∀ s, sess = some s →
      0 ≤ chosenIndex → chosenIndex < (s.options.length : Int) →
      ∃ s2, gradeAnswer sess chosenIndex
          = (.graded (chosenIndex == s.correctIndex), some s2) ∧
        s2.questionsAnswered = s.questionsAnswered + 1 ∧
        (s2.correctAnswers = s.correctAnswers + 1 ↔ chosenIndex = s.correctIndex) ∧
        (chosenIndex ≠ s.correctIndex → s2.correctAnswers = s.correctAnswers) ∧
        s2.question = s.question ∧ s2.options = s.options ∧
        s2.correctIndex = s.correctIndex) := by
  refine ⟨?_, ?_, ?_⟩
  · intro h; subst h; rfl
  · intro s hs hrange
    subst hs
    simp only [gradeAnswer, if_pos hrange]
  · intro s hs h0 hlt
    subst hs
    have hrange : ¬(chosenIndex < 0 ∨ (s.options.length : Int) ≤ chosenIndex) := by
      push_neg
      exact ⟨h0, hlt⟩
    simp only [gradeAnswer, if_neg hrange]
    refine ⟨_, rfl, rfl, ?_, ?_, rfl, rfl, rfl⟩
    · by_cases hc : chosenIndex = s.correctIndex
      · simp [hc]
      · simp only [beq_iff_eq]
        rw [if_neg hc]
        constructor
        · intro habs; omega
        · intro habs; exact absurd habs hc
    · intro hc
      simp only [beq_iff_eq]
      rw [if_neg hc]
      omega

/-- Witness for C3: with a 4-option session whose correct index is 2, choosing 2
grades correct and bumps both counters; choosing 5 is out of range. -/
theorem C3_grading_witness :
    (∃ s2, gradeAnswer (some ⟨"q", ["a", "b", "c", "d"], 2, none, [], 3, 1⟩) 2
        = (.graded ((2 : Int) == (2 : Int)), some s2) ∧
      s2.questionsAnswered = 3 + 1 ∧
      (s2.correctAnswers = 1 + 1 ↔ (2 : Int) = 2) ∧
      ((2 : Int) ≠ 2 → s2.correctAnswers = 1) ∧
      s2.question = "q" ∧ s2.options = ["a", "b", "c", "d"] ∧
      s2.correctIndex = 2) ∧
    gradeAnswer (some ⟨"q", ["a", "b", "c", "d"], 2, none, [], 3, 1⟩) 5
      = (.answerIndexOutOfRange, some ⟨"q", ["a", "b", "c", "d"], 2, none, [], 3, 1⟩) := by
  constructor
  · exact (C3_grading (some ⟨"q", ["a", "b", "c", "d"], 2, none, [], 3, 1⟩) 2).2.2
      ⟨"q", ["a", "b", "c", "d"], 2, none, [], 3, 1⟩ rfl (by decide) (by decide)
  · exact (C3_grading (some ⟨"q", ["a", "b", "c", "d"], 2, none, [], 3, 1⟩) 5).2.1
      ⟨"q", ["a", "b", "c", "d"], 2, none, [], 3, 1⟩ rfl (by decide)

/-- The user-visible outcome of the quiz Finish action. -/
inductive FinishOutcome where
  | activeTestNotFound
  | finished (questionsAnswered correctAnswers : Nat)
deriving DecidableEq, Repr

/-- `BotDatabase.get_quiz_session` (`src/db.py` lines 308-335), acting on the
stored session: its SELECT lists only
`user_id, question, options, correct_index, explanation, sources` and omits
`questions_answered` / `correct_answers`, so the row access for those columns
raises, the bare `except` catches it, and both counters come back as `0`.
Every stored session is therefore read with zeroed counters, whatever the row
actually holds. -/
def get_quiz_session (stored : Option QuizSession) : Option QuizSession :=
  stored.map fun s => { s with questionsAnswered := 0, correctAnswers := 0 }

/-- `QUIZ_FINISH` branch of `handle_quiz_callback` (`src/telegram_bot.py` lines
138-159): the session is read back through `get_quiz_session`; with no stored
session the bot replies "Активный тест не найден." and leaves state untouched;
with a session it reports the counters as read — always `0/0`, see
`get_quiz_session` — and clears the session via `clear_quiz_session`. -/
def finishQuiz (stored : Option QuizSession) : FinishOutcome × Option QuizSession :=
  match get_quiz_session stored with
  | none => (.activeTestNotFound, stored)
  | some s => (.finished s.questionsAnswered s.correctAnswers, none)

/-- Counterexample to C7 as stated: calling Finish with no stored session does
not produce a zero-valued summary — the code replies that no active test was
found, a distinct outcome from the `finished 0 0` summary; and calling Finish
with a stored session whose counters are 5/4 reports the `finished 0 0` summary
rather than the stored 5/4 snapshot, because `get_quiz_session` reads the
counters back as zero. -/
theorem C7_finish_counterexample :
    (finishQuiz none).1 = FinishOutcome.activeTestNotFound ∧
    (finishQuiz none).1 ≠ FinishOutcome.finished 0 0 ∧
    (finishQuiz (some ⟨"q", ["a", "b"], 0, none, [], 5, 4⟩)).1
      = FinishOutcome.finished 0 0 ∧
    (finishQuiz (some ⟨"q", ["a", "b"], 0, none, [], 5, 4⟩)).1
      ≠ FinishOutcome.finished 5 4 := by
  refine ⟨rfl, by decide, rfl, by decide⟩

/-- C7 (amended): Finish with a stored session deletes the session and reports
the summary built from the counters as `get_quiz_session` reads them back —
because that read drops the counter columns, the reported summary is always the
zero-valued one, whatever the stored counters are (the stored snapshot never
reaches the user); Finish with no stored session replies that no active test
was found: no error is raised and nothing changes, but no zero-valued summary
is produced either. -/
theorem C7_finish (stored : Option QuizSession) :
    (∀ s, stored = some s → finishQuiz stored = (.finished 0 0, none)) ∧
    (stored = none → finishQuiz stored = (.activeTestNotFound, none)) := by
  constructor
  · intro s h; subst h; rfl
  · intro h; subst h; rfl

/-- Witness for C7 (amended) at a concrete session: stored counters 2/1 are
reported as the zero summary and the session is deleted. -/
theorem C7_finish_witness :
    finishQuiz (some ⟨"q", ["a", "b"], 0, none, [], 2, 1⟩)
      = (.finished 0 0, none) :=
  (C7_finish (some ⟨"q", ["a", "b"], 0, none, [], 2, 1⟩)).1
    ⟨"q", ["a", "b"], 0, none, [], 2, 1⟩ rfl

/-- A `\w` word character of the source regex, at ASCII scope: letters, digits,
underscore. -/
def isWordChar (c : Char) : Bool := c.isAlphanum || c == '_'

/-- `re.findall(r"\w+", ·)`: the maximal runs of word characters, collected with
an accumulator for the run currently being read. -/
def wordsAux : List Char → List Char → List (List Char)
  | [], acc => if acc.isEmpty then [] else [acc.reverse]
  | c :: rest, acc =>
    if isWordChar c then wordsAux rest (c :: acc)
    else if acc.isEmpty then wordsAux rest []
    else acc.reverse :: wordsAux rest []

def findWords (cs : List Char) : List (List Char) := wordsAux cs []

/-- Query tokenization of `DocumentStore.search` (`src/document_store.py` line
140): `[w for w in re.findall(r"\w+", query.lower()) if len(w) > 2]`. -/
def tokensOf (query : String) : List (List Char) :=
  (findWords (query.toList.map Char.toLower)).filter (fun w => 2 < w.length)

/-- Python `str.count`: the number of non-overlapping occurrences, scanning left
to right.  Fuel-based so that it reduces in the kernel; fuel `hay.length` always
suffices because every step consumes at least one character of the haystack
(the definition guards on a non-empty pattern, which all call sites satisfy:
tokens have length > 2). -/
def countOccAux (pat : List Char) : Nat → List Char → Nat
  | 0, _ => 0
  | Nat.succ fuel, hay =>
    match hay with
    | [] => 0
    | _ :: rest =>
      if pat ≠ [] ∧ pat.isPrefixOf hay then
        1 + countOccAux pat fuel (hay.drop pat.length)
      else countOccAux pat fuel rest

def countOcc (pat hay : List Char) : Nat := countOccAux pat hay.length hay

/-- Total occurrences of all query tokens in the lower-cased chunk text
(`src/document_store.py` line 146). -/
def matchCount (ws : List (List Char)) (c : DocumentChunk) : Nat :=
  (ws.map fun w => countOcc w (c.text.toList.map Char.toLower)).sum

/-- Scoring pass of `DocumentStore.search` (lines 143-150): keep a copy of every
chunk with at least one match, scored `matches / len(words)`. -/
def scoreChunks (chunks : List DocumentChunk) (ws : List (List Char)) :
    List DocumentChunk :=
  chunks.filterMap fun c =>
    if matchCount ws c = 0 then none
    else some { c with score := (matchCount ws c : ℚ) / (ws.length : ℚ) }

/-- Sort relation: descending score.  `List.insertionSort` with this relation is
the stable descending sort that Python's `list.sort(key=..., reverse=True)`
performs (any two stable descending sorts agree). -/
def scoreGE (a b : DocumentChunk) : Prop := b.score ≤ a.score

instance : DecidableRel scoreGE := fun a b =>
  inferInstanceAs (Decidable (b.score ≤ a.score))

/-- `DocumentStore.search` (`src/document_store.py` lines 137-152).  `limit` is a
natural number, matching the non-negative limits the callers pass
(`scored[:limit]` is then exactly `take limit`). -/
def search (chunks : List DocumentChunk) (query : String) (limit : Nat) :
    List DocumentChunk :=
  if query.toList.all Char.isWhitespace || chunks.isEmpty then []
  else if (tokensOf query).isEmpty then []
  else ((scoreChunks chunks (tokensOf query)).insertionSort scoreGE).take limit

theorem isWordChar_toLower_of_whitespace (c : Char) (h : c.isWhitespace = true) :
    isWordChar (Char.toLower c) = false := by
  have hc : c = ' ' ∨ c = '\t' ∨ c = '\r' ∨ c = '\n' := by
    simp [Char.isWhitespace] at h
    tauto
  rcases hc with h' | h' | h' | h' <;> subst h' <;> rfl

theorem wordsAux_all_nonword (cs : List Char)
    (h : ∀ c ∈ cs, isWordChar c = false) : wordsAux cs [] = [] := by
  induction cs with
  | nil => rfl
  | cons c rest ih =>
    have hc : isWordChar c = false := h c (List.mem_cons_self c rest)
    simp only [wordsAux, hc]
    exact ih (fun x hx => h x (List.mem_cons_of_mem c hx))

theorem tokensOf_of_whitespace (query : String)
    (h : query.toList.all Char.isWhitespace = true) : tokensOf query = [] := by
  have hw : wordsAux (query.toList.map Char.toLower) [] = [] := by
    apply wordsAux_all_nonword
    intro c hc
    rcases List.mem_map.mp hc with ⟨c0, hc0, rfl⟩
    exact isWordChar_toLower_of_whitespace c0 (List.all_eq_true.mp h c0 hc0)
  unfold tokensOf findWords
  rw [hw]
  rfl

theorem filter_score_orderedInsert (s : ℚ) (a : DocumentChunk)
    (l : List DocumentChunk) :
    (l.orderedInsert scoreGE a).filter (fun c => c.score == s)
      = if a.score = s
        then a :: l.filter (fun c => c.score == s)
        else l.filter (fun c => c.score == s) := by
  have hsplit : l.filter (fun c => c.score == s)
      = (l.takeWhile fun b => decide ¬scoreGE a b).filter (fun c => c.score == s)
        ++ (l.dropWhile fun b => decide ¬scoreGE a b).filter (fun c => c.score == s) := by
    rw [← List.filter_append, List.takeWhile_append_dropWhile]
  rw [List.orderedInsert_eq_take_drop, List.filter_append, List.filter_cons]
  by_cases ha : a.score = s
  · have hT : (l.takeWhile fun b => decide ¬scoreGE a b).filter
        (fun c => c.score == s) = [] := by
      rw [List.filter_eq_nil_iff]
      intro b hb
      have hq := List.mem_takeWhile_imp hb
      simp only [decide_eq_true_eq, scoreGE, not_le] at hq
      -- hq : a.score < b.score, so b.score ≠ s
      simp only [beq_iff_eq]
      intro hbs
      rw [hbs, ← ha] at hq
      exact lt_irrefl _ hq
    have hpa : (a.score == s) = true := beq_iff_eq.mpr ha
    rw [if_pos ha, hT, List.nil_append, if_pos hpa, hsplit, hT, List.nil_append]
  · have hpa : ¬((a.score == s) = true) := by
      simp only [beq_iff_eq]; exact ha
    rw [if_neg ha, if_neg hpa, hsplit]

/-- `insertionSort` with the descending-score relation is stable: filtering the
sorted output by any fixed score value yields exactly the same sublist, in the
same order, as filtering the input.  This is the "ties preserve original order"
property. -/
theorem filter_score_insertionSort (s : ℚ) (l : List DocumentChunk) :
    (l.insertionSort scoreGE).filter (fun c => c.score == s)
      = l.filter (fun c => c.score == s) := by
  induction l with
  | nil => rfl
  | cons a l ih =>
    rw [List.insertionSort, filter_score_orderedInsert, ih, List.filter_cons]
    by_cases ha : a.score = s
    · rw [if_pos ha, if_pos (beq_iff_eq.mpr ha)]
    · rw [if_neg ha, if_neg (by simp only [beq_iff_eq]; exact ha)]

theorem sorted_insertionSort_scoreGE (l : List DocumentChunk) :
    List.Pairwise scoreGE (l.insertionSort scoreGE) := by
  haveI : IsTotal DocumentChunk scoreGE := ⟨fun a b => le_total b.score a.score⟩
  haveI : IsTrans DocumentChunk scoreGE :=
    ⟨fun _ _ _ hab hbc => le_trans hbc hab⟩
  exact List.sorted_insertionSort scoreGE l

/-- C1: search returns the empty list when the query yields no usable token or
the index is empty; otherwise it returns the top `limit` of the candidate list,
which contains exactly one scored copy of every chunk with at least one token
occurrence (score = total occurrences / token count), sorted in descending score
order with ties preserving the original chunk order. -/
theorem C1_search (chunks : List DocumentChunk) (query : String) (limit : Nat) :
    ((tokensOf query = [] ∨ chunks = []) → search chunks query limit = []) ∧
    (search chunks query limit).length ≤ limit ∧
    (chunks ≠ [] → tokensOf query ≠ [] →
      search chunks query limit
        = ((scoreChunks chunks (tokensOf query)).insertionSort scoreGE).take limit) ∧
    (∀ c, c ∈ (scoreChunks chunks (tokensOf query)).insertionSort scoreGE ↔
      ∃ c0 ∈ chunks, matchCount (tokensOf query) c0 ≠ 0 ∧
        c = { c0 with
          score := (matchCount (tokensOf query) c0 : ℚ)
            / ((tokensOf query).length : ℚ) }) ∧
    List.Pairwise scoreGE (search chunks query limit) ∧
    (∀ s : ℚ,
      ((scoreChunks chunks (tokensOf query)).insertionSort scoreGE).filter
          (fun c => c.score == s)
        = (scoreChunks chunks (tokensOf query)).filter (fun c => c.score == s)) := by
  refine ⟨?_, ?_, ?_, ?_, ?_, fun s => filter_score_insertionSort s _⟩
  · intro h
    rcases h with h | h
    · unfold search
      by_cases hq : (query.toList.all Char.isWhitespace || chunks.isEmpty) = true
      · rw [if_pos hq]
      · rw [if_neg hq, h]
        simp
    · subst h
      simp [search]
  · unfold search
    split_ifs with h1 h2
    · simp
    · simp
    · exact List.length_take_le _ _
  · intro hchunks htok
    have hq : query.toList.all Char.isWhitespace = false := by
      by_contra hq
      rw [Bool.not_eq_false] at hq
      exact htok (tokensOf_of_whitespace query hq)
    have hc : chunks.isEmpty = false := by
      cases chunks with
      | nil => exact absurd rfl hchunks
      | cons a l => rfl
    have htok2 : (tokensOf query).isEmpty = false := by
      cases hmm : tokensOf query with
      | nil => exact absurd hmm htok
      | cons a l => rfl
    unfold search
    rw [hq, hc]
    rw [if_neg (by simp)]
    rw [if_neg (by simp [htok2])]
  · intro c
    haveI : IsTotal DocumentChunk scoreGE := ⟨fun a b => le_total b.score a.score⟩
    rw [(List.perm_insertionSort scoreGE _).mem_iff]
    unfold scoreChunks
    rw [List.mem_filterMap]
    constructor
    · rintro ⟨c0, hc0, hf⟩
      by_cases hm : matchCount (tokensOf query) c0 = 0
      · rw [if_pos hm] at hf; exact absurd hf (by simp)
      · rw [if_neg hm] at hf
        exact ⟨c0, hc0, hm, (Option.some_inj.mp hf).symm⟩
    · rintro ⟨c0, hc0, hm, rfl⟩
      exact ⟨c0, hc0, by rw [if_neg hm]⟩
  · unfold search
    split_ifs with h1 h2
    · exact List.Pairwise.nil
    · exact List.Pairwise.nil
    · exact List.Pairwise.sublist (List.take_sublist _ _)
        (sorted_insertionSort_scoreGE _)

/-- Witness for C1: a query with no usable token (all stopword-length words)
returns the empty list on a non-empty index. -/
theorem C1_search_witness :
    search [⟨"doc.txt", "a b c", 0⟩] "a b" 3 = [] :=
  (C1_search [⟨"doc.txt", "a b c", 0⟩] "a b" 3).1 (Or.inl (by rfl))

/-- Python `str.strip()` on a character list: drop whitespace from both ends. -/
def pyStripL (cs : List Char) : List Char :=
  ((cs.dropWhile Char.isWhitespace).reverse.dropWhile Char.isWhitespace).reverse

/-- Python `str.strip()`. -/
def pyStrip (s : String) : String := ⟨pyStripL s.toList⟩

/-- Python `str.lower()` (ASCII scope). -/
def pyLower (s : String) : String := ⟨s.toList.map Char.toLower⟩

/-- Python `str.split(sep)` for a non-empty separator: split at every
non-overlapping occurrence, scanning left to right.  Fuel-based so it reduces in
the kernel; fuel `length + 1` always suffices since every step consumes at least
one character and one final step handles the end of the string. -/
def splitOnSepFuel (sep : List Char) : Nat → List Char → List Char → List (List Char)
  | 0, cs, acc => [acc.reverse ++ cs]
  | Nat.succ fuel, cs, acc =>
    if sep ≠ [] ∧ sep.isPrefixOf cs then
      acc.reverse :: splitOnSepFuel sep fuel (cs.drop sep.length) []
    else
      match cs with
      | [] => [acc.reverse]
      | c :: rest => splitOnSepFuel sep fuel rest (c :: acc)

def pySplit (s sep : String) : List String :=
  (splitOnSepFuel sep.toList (s.toList.length + 1) s.toList []).map fun cs => ⟨cs⟩

/-- Python `"```" in text` (substring containment). -/
def containsTripleTick (s : String) : Bool := (pySplit s "```").length != 1

/-- A JSON value as `json.loads` can return it (integer numerals only — the
quiz contract uses no floats). -/
inductive Json where
  | null
  | bool (b : Bool)
  | num (n : Int)
  | str (s : String)
  | arr (elems : List Json)
  | obj (members : List (String × Json))
deriving Repr

/-- The candidate strings `ChatService._parse_quiz_json` feeds to `json.loads`
(`src/chat_service.py` lines 174-183), in order: the trimmed raw text first,
then — when a ``` fence delimiter occurs in it — every segment of the fence
split, trimmed, with a leading "json" language tag (4 characters) stripped. -/
def quizCandidates (rawText : String) : List String :=
  pyStrip rawText ::
    (if containsTripleTick (pyStrip rawText) then
      (pySplit (pyStrip rawText) "```").map (fun part0 =>
        if ("json".toList).isPrefixOf (pyLower (pyStrip part0)).toList
        then pyStrip ⟨(pyStrip part0).toList.drop 4⟩
        else pyStrip part0)
    else [])

/-- First successful parse among the candidates (`for candidate in candidates:
try: return json.loads(candidate) except ...: continue`). -/
def firstParse (loads : String → Option Json) : List String → Option Json
  | [] => none
  | c :: rest =>
    match loads c with
    | some j => some j
    | none => firstParse loads rest

/-- The failures `generate_quiz_question` / `_parse_quiz_json` can raise. -/
inductive QuizError where
  | modelError (e : String)
  | malformedQuestion
  | wrongOptionCount
  | badCorrectIndex
  | emptyQuestion
  | typeError
deriving DecidableEq, Repr

/-- `ChatService._parse_quiz_json` (`src/chat_service.py` lines 172-189):
first candidate that parses wins; if none parses, the malformed-question error
("Не удалось разобрать JSON с тестовым вопросом."). -/
def parseQuizJson (loads : String → Option Json) (rawText : String) :
    Except QuizError Json :=
  match firstParse loads (quizCandidates rawText) with
  | some j => .ok j
  | none => .error .malformedQuestion

/-- `dict.get key` on a parsed JSON object.  Python's `json.loads` builds a dict
in which a duplicated key keeps its last value, hence the reversed search. -/
def jsonGet (members : List (String × Json)) (key : String) : Option Json :=
  (members.reverse.find? fun kv => kv.1 == key).map (·.2)

def digitsToNat (ds : List Char) : Nat :=
  ds.foldl (fun n c => n * 10 + (c.toNat - 48)) 0

/-- Python `int(·)` on values `json.loads` can produce: an int stays itself,
booleans coerce to 0/1, a string holding an optionally signed integer (with
surrounding whitespace) parses, everything else raises. -/
def pyIntOfJson : Json → Except QuizError Int
  | .num n => .ok n
  | .bool b => .ok (if b then 1 else 0)
  | .str s =>
    match pyStripL s.toList with
    | '-' :: ds =>
      if ds ≠ [] ∧ ds.all Char.isDigit then .ok (-(digitsToNat ds : Int))
      else .error .typeError
    | '+' :: ds =>
      if ds ≠ [] ∧ ds.all Char.isDigit then .ok (digitsToNat ds : Int)
      else .error .typeError
    | ds =>
      if ds ≠ [] ∧ ds.all Char.isDigit then .ok (digitsToNat ds : Int)
      else .error .typeError
  | _ => .error .typeError

/-- Element extraction for `[opt.strip() for opt in data.get("options", [])]`:
every element of a JSON array must be a string (otherwise `opt.strip()` raises
`AttributeError`). -/
def strElems : List Json → Except QuizError (List String)
  | [] => .ok []
  | .str s :: rest => (strElems rest).map (s :: ·)
  | _ :: _ => .error .typeError

/-- The raw option strings as Python's comprehension iterates them: a JSON array
of strings yields them, a missing key yields the `[]` default, a JSON string
yields its one-character substrings (Python iterates a `str`), and any other
value fails like Python does when iterating or stripping it. -/
def optionStrings : Option Json → Except QuizError (List String)
  | none => .ok []
  | some (.arr xs) => strElems xs
  | some (.str s) => .ok (s.toList.map fun c => ⟨[c]⟩)
  | some _ => .error .typeError

/-- `data.get(key, "").strip()` — the value must be a string. -/
def pyStrField (members : List (String × Json)) (key : String) :
    Except QuizError String :=
  match jsonGet members key with
  | none => .ok ""
  | some (.str s) => .ok (pyStrip s)
  | some _ => .error .typeError

/-- A validated quiz question (`QuizQuestion` dataclass in `src/chat_service.py`;
`sources` is filled in by `generate_quiz_question` from the sampled chunks). -/
structure QuizQuestion where
  question : String
  options : List String
  correctIndex : Int
  explanation : String
  sources : List String
deriving DecidableEq, Repr

/-- The validation steps of `ChatService.generate_quiz_question`
(`src/chat_service.py` lines 144-153), applied to the parsed JSON value:
exactly 4 options survive strip-and-drop-empty, `int(correct_index)` lies in
`range(4)`, and the stripped question is non-empty. -/
def validateQuiz (data : Json) : Except QuizError QuizQuestion :=
  match data with
  | .obj members =>
    (match optionStrings (jsonGet members "options") with
     | .error e => .error e
     | .ok rawOpts =>
       if ((rawOpts.map pyStrip).filter (fun o => o ≠ "")).length ≠ 4 then
         .error .wrongOptionCount
       else
         match pyIntOfJson ((jsonGet members "correct_index").getD (.num (-1))) with
         | .error e => .error e
         | .ok ci =>
           if ci < 0 ∨ 4 ≤ ci then .error .badCorrectIndex
           else
             match pyStrField members "explanation" with
             | .error e => .error e
             | .ok explanation =>
               match pyStrField members "question" with
               | .error e => .error e
               | .ok question =>
                 if question = "" then .error .emptyQuestion
                 else .ok { question := question,
                            options := (rawOpts.map pyStrip).filter (fun o => o ≠ ""),
                            correctIndex := ci, explanation := explanation,
                            sources := [] })
  | _ => .error .typeError

/-- Parse-then-validate composition of `generate_quiz_question`
(`src/chat_service.py` lines 142-153). -/
def parseAndValidate (loads : String → Option Json) (raw : String) :
    Except QuizError QuizQuestion :=
  match parseQuizJson loads raw with
  | .error e => .error e
  | .ok j => validateQuiz j

/-- Whitespace skipped between JSON tokens. -/
def skipJsonWs : List Char → List Char
  | c :: rest =>
    if c = ' ' ∨ c = '\n' ∨ c = '\t' ∨ c = '\r' then skipJsonWs rest else c :: rest
  | [] => []

/-- A JSON string literal body (after the opening quote), for literals without
escape sequences — the subset the quiz contract uses. -/
def parseStrBody : List Char → Option (String × List Char)
  | [] => none
  | c :: rest =>
    if c = '"' then some ("", rest)
    else if c = '\\' then none
    else (parseStrBody rest).map fun p => (⟨c :: p.1.toList⟩, p.2)

mutual

/-- One JSON value.  Fuel-based recursion (structural on the first argument) so
that the parser reduces in the kernel; every nesting step consumes at least one
character, so fuel `length + 1` suffices. -/
def parseJsonVal : Nat → List Char → Option (Json × List Char)
  | 0, _ => none
  | Nat.succ fuel, cs0 =>
    match skipJsonWs cs0 with
    | '"' :: rest => (parseStrBody rest).map fun p => (.str p.1, p.2)
    | '{' :: rest =>
      (match skipJsonWs rest with
       | '}' :: rest2 => some (.obj [], rest2)
       | _ => (parseJsonMembers fuel rest).map fun p => (.obj p.1, p.2))
    | '[' :: rest =>
      (match skipJsonWs rest with
       | ']' :: rest2 => some (.arr [], rest2)
       | _ => (parseJsonElems fuel rest).map fun p => (.arr p.1, p.2))
    | 't' :: 'r' :: 'u' :: 'e' :: rest => some (.bool true, rest)
    | 'f' :: 'a' :: 'l' :: 's' :: 'e' :: rest => some (.bool false, rest)
    | 'n' :: 'u' :: 'l' :: 'l' :: rest => some (.null, rest)
    | '-' :: rest =>
      (match rest.span Char.isDigit with
       | (ds, rest2) =>
         if ds.isEmpty then none
         else some (.num (-(digitsToNat ds : Int)), rest2))
    | other =>
      (match other.span Char.isDigit with
       | (ds, rest2) =>
         if ds.isEmpty then none
         else some (.num (digitsToNat ds : Int), rest2))

/-- The members of a JSON object, expecting `"key": value` next. -/
def parseJsonMembers : Nat → List Char → Option (List (String × Json) × List Char)
  | 0, _ => none
  | Nat.succ fuel, cs0 =>
    match skipJsonWs cs0 with
    | '"' :: rest =>
      (match parseStrBody rest with
       | none => none
       | some (key, rest1) =>
         match skipJsonWs rest1 with
         | ':' :: rest2 =>
           (match parseJsonVal fuel rest2 with
            | none => none
            | some (v, rest3) =>
              match skipJsonWs rest3 with
              | ',' :: rest4 =>
                (parseJsonMembers fuel rest4).map fun p => ((key, v) :: p.1, p.2)
              | '}' :: rest4 => some ([(key, v)], rest4)
              | _ => none)
         | _ => none)
    | _ => none

/-- The elements of a JSON array, expecting a value next. -/
def parseJsonElems : Nat → List Char → Option (List Json × List Char)
  | 0, _ => none
  | Nat.succ fuel, cs0 =>
    match parseJsonVal fuel cs0 with
    | none => none
    | some (v, rest1) =>
      match skipJsonWs rest1 with
      | ',' :: rest2 => (parseJsonElems fuel rest2).map fun p => (v :: p.1, p.2)
      | ']' :: rest2 => some ([v], rest2)
      | _ => none

end

/-- Model of Python `json.loads` restricted to the JSON subset the quiz contract
uses (objects, arrays, escape-free strings, integers, booleans, null): parse one
value, allow trailing whitespace, reject anything else. -/
def jsonLoads (s : String) : Option Json :=
  match parseJsonVal (s.toList.length + 1) s.toList with
  | some (j, rest) => if (skipJsonWs rest).isEmpty then some j else none
  | none => none

theorem firstParse_eq_none (loads : String → Option Json) (cs : List String)
    (h : ∀ c ∈ cs, loads c = none) : firstParse loads cs = none := by
  induction cs with
  | nil => rfl
  | cons c rest ih =>
    have hc : loads c = none := h c (List.mem_cons_self c rest)
    simp only [firstParse, hc]
    exact ih fun x hx => h x (List.mem_cons_of_mem c hx)

theorem pyStrField_shape (members : List (String × Json)) (key : String)
    (s : String) (h : pyStrField members key = .ok s) : ∃ r, s = pyStrip r := by
  unfold pyStrField at h
  cases hg : jsonGet members key with
  | none =>
    rw [hg] at h
    refine ⟨"", ?_⟩
    injection h with h2
    rw [← h2]
    rfl
  | some j =>
    rw [hg] at h
    cases j with
    | str t =>
      injection h with h2
      exact ⟨t, h2.symm⟩
    | null => simp at h
    | bool b => simp at h
    | num n => simp at h
    | arr xs => simp at h
    | obj ms => simp at h

/-- C4: quiz-question parsing tries, in order and stopping at the first success,
the raw trimmed text as JSON, then (when a ``` fence delimiter is present) each
segment of the fence split with a leading "json" language tag stripped; it fails
with the malformed-question error when no candidate parses, and after a
successful parse validation fails with a distinct error unless there are exactly
4 non-empty trimmed options, `correct_index` is an integer in `[0,3]`, and the
question is non-empty after trimming.  It succeeds on a fenced ```json block and
on bare JSON, and a payload with only 3 options fails with the option-count
validation error. -/
theorem C4_quiz_parsing :
    (∀ (loads : String → Option Json) (raw : String) (j : Json),
      loads (pyStrip raw) = some j → parseQuizJson loads raw = .ok j) ∧
    (∀ (loads : String → Option Json) (raw : String),
      (∀ c ∈ quizCandidates raw, loads c = none) →
      parseQuizJson loads raw = .error .malformedQuestion) ∧
    (∀ raw : String,
      quizCandidates raw = pyStrip raw ::
        (if containsTripleTick (pyStrip raw) then
          (pySplit (pyStrip raw) "```").map (fun part0 =>
            if ("json".toList).isPrefixOf (pyLower (pyStrip part0)).toList
            then pyStrip ⟨(pyStrip part0).toList.drop 4⟩
            else pyStrip part0)
        else [])) ∧
    parseQuizJson jsonLoads
        "```json\n\x7b\"question\":\"Q?\",\"options\":[\"a\",\"b\",\"c\",\"d\"],\"correct_index\":1,\"explanation\":\"E\"\x7d\n```"
      = .ok (.obj [("question", .str "Q?"),
          ("options", .arr [.str "a", .str "b", .str "c", .str "d"]),
          ("correct_index", .num 1), ("explanation", .str "E")]) ∧
    parseQuizJson jsonLoads
        "\x7b\"question\":\"Q?\",\"options\":[\"a\",\"b\",\"c\",\"d\"],\"correct_index\":1,\"explanation\":\"E\"\x7d"
      = .ok (.obj [("question", .str "Q?"),
          ("options", .arr [.str "a", .str "b", .str "c", .str "d"]),
          ("correct_index", .num 1), ("explanation", .str "E")]) ∧
    parseAndValidate jsonLoads "\x7b\"options\":[\"a\",\"b\",\"c\"]\x7d"
      = .error .wrongOptionCount ∧
    QuizError.wrongOptionCount ≠ QuizError.malformedQuestion ∧
    (∀ (d : Json) (q : QuizQuestion), validateQuiz d = .ok q →
      q.options.length = 4 ∧
      (∀ o ∈ q.options, o ≠ "" ∧ ∃ r, o = pyStrip r) ∧
      0 ≤ q.correctIndex ∧ q.correctIndex < 4 ∧
      q.question ≠ "" ∧ (∃ r, q.question = pyStrip r)) := by
  refine ⟨?_, ?_, fun raw => rfl, by rfl, by rfl, by rfl, by decide, ?_⟩
  · intro loads raw j h
    simp only [parseQuizJson, quizCandidates, firstParse, h]
  · intro loads raw h
    unfold parseQuizJson
    rw [firstParse_eq_none loads _ h]
  · intro d q h
    cases d with
    | null => exact absurd h (by simp [validateQuiz])
    | bool b => exact absurd h (by simp [validateQuiz])
    | num n => exact absurd h (by simp [validateQuiz])
    | str s => exact absurd h (by simp [validateQuiz])
    | arr xs => exact absurd h (by simp [validateQuiz])
    | obj members =>
      simp only [validateQuiz] at h
      cases hopt : optionStrings (jsonGet members "options") with
      | error e => rw [hopt] at h; exact absurd h (by simp)
      | ok rawOpts =>
        rw [hopt] at h
        dsimp only at h
        by_cases hlen : ((rawOpts.map pyStrip).filter (fun o => o ≠ "")).length ≠ 4
        · rw [if_pos hlen] at h; exact absurd h (by simp)
        · rw [if_neg hlen] at h
          push_neg at hlen
          cases hci : pyIntOfJson ((jsonGet members "correct_index").getD (.num (-1))) with
          | error e => rw [hci] at h; exact absurd h (by simp)
          | ok ci =>
            rw [hci] at h
            dsimp only at h
            by_cases hrange : ci < 0 ∨ 4 ≤ ci
            · rw [if_pos hrange] at h; exact absurd h (by simp)
            · rw [if_neg hrange] at h
              push_neg at hrange
              cases hexp : pyStrField members "explanation" with
              | error e => rw [hexp] at h; exact absurd h (by simp)
              | ok explanation =>
                rw [hexp] at h
                dsimp only at h
                cases hque : pyStrField members "question" with
                | error e => rw [hque] at h; exact absurd h (by simp)
                | ok question =>
                  rw [hque] at h
                  dsimp only at h
                  by_cases hq0 : question = ""
                  · rw [if_pos hq0] at h; exact absurd h (by simp)
                  · rw [if_neg hq0] at h
                    have hqeq := Except.ok.inj h
                    cases hqeq
                    refine ⟨hlen, ?_, hrange.1, hrange.2, hq0,
                      pyStrField_shape members "question" question hque⟩
                    intro o ho
                    have ho2 := List.mem_filter.mp ho
                    refine ⟨by simpa using ho2.2, ?_⟩
                    rcases List.mem_map.mp ho2.1 with ⟨r, _, hr⟩
                    exact ⟨r, hr.symm⟩

/-- Witness for C4: the first candidate (the raw trimmed text) parsing
successfully short-circuits the strategy. -/
theorem C4_quiz_parsing_witness :
    parseQuizJson jsonLoads "7" = .ok (.num 7) :=
  C4_quiz_parsing.1 jsonLoads "7" (.num 7) (by rfl)

/-- `ChatService.answer_text` (`src/chat_service.py` lines 48-64), restricted to
the state the claims track (the conversation history): retrieve context, build
the prompt, call the model (`lm_client.chat`, abstracted as `chat`), and only on
success commit the turn to the conversation window; a model failure propagates
and leaves the history untouched.  The append-only audit logging
(`log_interaction`, `update_last_active`, `log_document_usage`) is not part of
the tracked state. -/
def answer_text (chat : List Msg → Except String String) (maxMessages : Nat)
    (store : List DocumentChunk) (st : ConvState) (chatId : Int)
    (systemPrompt text : String) :
    Except String (String × List DocumentChunk) × ConvState :=
  match chat (build_messages st chatId text systemPrompt (search store text 3)).1 with
  | .error e => (.error e, st)
  | .ok reply =>
    (.ok (reply, search store text 3),
     ConversationManager.update maxMessages st chatId text reply)

/-- `ChatService.generate_quiz_question` (`src/chat_service.py` lines 110-170),
abstracted over the model call outcome (`modelReply`) and with the sampled
source paths passed in (`sample_chunks` is randomized): a model failure, a parse
failure or a validation failure propagates; on success the validated question
carries the sampled source paths. -/
def generate_quiz_question (loads : String → Option Json)
    (modelReply : Except String String) (sourcePaths : List String) :
    Except QuizError QuizQuestion :=
  match modelReply with
  | .error e => .error (.modelError e)
  | .ok raw =>
    match parseAndValidate loads raw with
    | .error e => .error e
    | .ok q => .ok { q with sources := sourcePaths }

/-- `_send_quiz_question` (`src/telegram_bot.py` lines 523-558): read the
existing session through `get_quiz_session`, generate a question; on any
failure reply with an error message and leave the stored session untouched; on
success upsert the session (`set_quiz_session`, `src/db.py` lines 264-306) with
the new question content and the counters of `existing` — which
`get_quiz_session` always reads back as zero, so the intended carry-over
(`existing.questions_answered if existing else 0`) in fact writes `0/0` over
the stored counters. -/
def send_quiz_question (loads : String → Option Json)
    (modelReply : Except String String) (sourcePaths : List String)
    (stored : Option QuizSession) :
    Except QuizError QuizQuestion × Option QuizSession :=
  match generate_quiz_question loads modelReply sourcePaths with
  | .error e => (.error e, stored)
  | .ok q =>
    (.ok q,
     some { question := q.question, options := q.options,
            correctIndex := q.correctIndex, explanation := some q.explanation,
            sources := q.sources,
            questionsAnswered :=
              ((get_quiz_session stored).map (·.questionsAnswered)).getD 0,
            correctAnswers :=
              ((get_quiz_session stored).map (·.correctAnswers)).getD 0 })

/-- C5: when the external model call fails, `answer_text` propagates the error
and commits nothing to the conversation history (the commit happens exactly on
success), and a quiz-question generation failure — model error, parse error or
validation error — writes no quiz session (the write happens exactly on
success, strictly after the triggering external call succeeded). -/
theorem C5_no_partial_state (chat : List Msg → Except String String)
    (maxMessages : Nat) (store : List DocumentChunk) (st : ConvState)
    (chatId : Int) (systemPrompt text : String)
    (loads : String → Option Json) (modelReply : Except String String)
    (sourcePaths : List String) (sess : Option QuizSession) :
    (∀ e, chat (build_messages st chatId text systemPrompt
          (search store text 3)).1 = .error e →
      answer_text chat maxMessages store st chatId systemPrompt text
        = (.error e, st)) ∧
    (∀ r, chat (build_messages st chatId text systemPrompt
          (search store text 3)).1 = .ok r →
      answer_text chat maxMessages store st chatId systemPrompt text
        = (.ok (r, search store text 3),
           ConversationManager.update maxMessages st chatId text r)) ∧
    (∀ e, generate_quiz_question loads modelReply sourcePaths = .error e →
      (send_quiz_question loads modelReply sourcePaths sess).2 = sess ∧
      (send_quiz_question loads modelReply sourcePaths sess).1 = .error e) ∧
    (∀ e, modelReply = .error e →
      generate_quiz_question loads modelReply sourcePaths
        = .error (.modelError e)) ∧
    (∀ q, generate_quiz_question loads modelReply sourcePaths = .ok q →
      (send_quiz_question loads modelReply sourcePaths sess).2
        = some { question := q.question, options := q.options,
                 correctIndex := q.correctIndex,
                 explanation := some q.explanation,
                 sources := q.sources,
                 questionsAnswered :=
                   ((get_quiz_session sess).map (·.questionsAnswered)).getD 0,
                 correctAnswers :=
                   ((get_quiz_session sess).map (·.correctAnswers)).getD 0 }) := by
  refine ⟨?_, ?_, ?_, ?_, ?_⟩
  · intro e he
    unfold answer_text
    rw [he]
  · intro r hr
    unfold answer_text
    rw [hr]
  · intro e he
    unfold send_quiz_question
    rw [he]
    exact ⟨rfl, rfl⟩
  · intro e he
    subst he
    rfl
  · intro q hq
    unfold send_quiz_question
    rw [hq]

/-- Witness for C5: a failing model call propagates and leaves the (empty)
history untouched. -/
theorem C5_no_partial_state_witness :
    answer_text (fun _ => .error "boom") 10 [] emptyConv 0 "sys" "hello world"
      = (.error "boom", emptyConv) :=
  (C5_no_partial_state (fun _ => .error "boom") 10 [] emptyConv 0 "sys"
    "hello world" jsonLoads (.error "boom") [] none).1 "boom" rfl

/-- C9: the counter preservation the claim states — and the code's own
carry-over expression (`questions_answered=existing.questions_answered if
existing else 0` in `_send_quiz_question`) intends — is defeated by a slip in
`BotDatabase.get_quiz_session`: its SELECT omits the counter columns, so
`existing` always carries counters `0/0`, and `set_quiz_session`'s upsert then
overwrites the stored counters with zero on every question store.  Evaluated at
the failing input — a stored session with counters 5/4 and a successfully
generated new question — the stored session ends with counters 0/0 instead of
the claimed 5/4 (the question content is replaced as claimed). -/
theorem C9_counter_reset :
    (send_quiz_question jsonLoads
        (.ok "\x7b\"question\":\"Q?\",\"options\":[\"a\",\"b\",\"c\",\"d\"],\"correct_index\":1,\"explanation\":\"E\"\x7d")
        ["kb.txt"]
        (some ⟨"old", ["x", "y", "z", "w"], 0, none, [], 5, 4⟩)).2
      = some ⟨"Q?", ["a", "b", "c", "d"], 1, some "E", ["kb.txt"], 0, 0⟩ := by
  rfl

/-- `re.split(r"\n{2,}", text)`: split at every maximal run of two or more
newline characters.  Fuel-based so it reduces in the kernel; every step consumes
at least one character, and the fuel-exhausted fallback appends the (then empty)
remainder, so fuel `length` is exact. -/
def splitParasFuel : Nat → List Char → List Char → List (List Char)
  | 0, cs, acc => [acc.reverse ++ cs]
  | Nat.succ fuel, cs, acc =>
    match cs with
    | [] => [acc.reverse]
    | '\n' :: '\n' :: rest =>
      acc.reverse :: splitParasFuel fuel (rest.dropWhile (· == '\n')) []
    | c :: rest => splitParasFuel fuel rest (c :: acc)

def splitParas (cs : List Char) : List (List Char) :=
  splitParasFuel cs.length cs []

/-- `"\n\n".join(buffer)`. -/
def joinParas (ps : List (List Char)) : List Char :=
  (ps.intersperse ['\n', '\n']).flatten

/-- The inner `while len(paragraph) > max_len` hard-slice loop of
`_split_into_chunks` (`src/document_store.py` lines 117-125): cut a cap-sized
head, append it to the buffer, and — the accumulated length now being at least
the cap — emit the joined buffer.  Returns the emitted chunks, the final buffer
and length, and the remaining paragraph tail.  Fuel-based: each iteration
consumes `maxLen ≥ 1` characters and one unit of fuel, so fuel `p.length`
suffices.  The loop is guarded by `0 < maxLen`, mirroring that the Python loop
terminates only for a positive cap (every call site uses the default 1200). -/
def sliceLoopFuel (maxLen : Nat) :
    Nat → List Char → List (List Char) → Nat →
    List (List Char) × List (List Char) × Nat × List Char
  | 0, p, buf, len => ([], buf, len, p)
  | Nat.succ fuel, p, buf, len =>
    if maxLen < p.length ∧ 0 < maxLen then
      if maxLen ≤ len + (p.take maxLen).length then
        (joinParas (buf ++ [p.take maxLen])
            :: (sliceLoopFuel maxLen fuel (p.drop maxLen) [] 0).1,
          (sliceLoopFuel maxLen fuel (p.drop maxLen) [] 0).2)
      else
        sliceLoopFuel maxLen fuel (p.drop maxLen)
          (buf ++ [p.take maxLen]) (len + (p.take maxLen).length)
    else ([], buf, len, p)

/-- The body of the `for paragraph in paragraphs` loop of `_split_into_chunks`
(`src/document_store.py` lines 113-131), acting on the fold state
`(chunks emitted so far, buffer, buffered length)`: strip the paragraph, skip it
when empty, hard-slice while it exceeds the cap, append the remainder to the
buffer and emit the joined buffer once the accumulated length reaches the cap. -/
def paraStep (maxLen : Nat) (st : List (List Char) × List (List Char) × Nat)
    (para : List Char) : List (List Char) × List (List Char) × Nat :=
  match st with
  | (cs, buf, len) =>
    if (pyStripL para).isEmpty then (cs, buf, len)
    else
      match sliceLoopFuel maxLen (pyStripL para).length (pyStripL para) buf len with
      | (cs1, buf1, len1, rest) =>
        if maxLen ≤ len1 + rest.length then
          (cs ++ cs1 ++ [joinParas (buf1 ++ [rest])], [], 0)
        else (cs ++ cs1, buf1 ++ [rest], len1 + rest.length)

/-- `DocumentStore._split_into_chunks` (`src/document_store.py` lines 98-135);
the default cap `max_len = 1200` is kept as a parameter. -/
def split_into_chunks (text : List Char) (maxLen : Nat) : List (List Char) :=
  match (splitParas text).foldl (paraStep maxLen) ([], [], 0) with
  | (cs, buf, _) => cs ++ (if buf.isEmpty then [] else [joinParas buf])

/-- Invariant of the splitter's buffer: the tracked `length` is the total piece
length (the source counts characters without the joining separators), it is
strictly below the cap, and every buffered piece is non-empty and within the
cap. -/
def BufInv (maxLen : Nat) (buf : List (List Char)) (len : Nat) : Prop :=
  len = (buf.map List.length).sum ∧ len < maxLen ∧
  ∀ p ∈ buf, p ≠ [] ∧ p.length ≤ maxLen

/-- A well-formed chunk: the separator-join of a non-empty piece list in which
every piece is non-empty and of length at most the cap, and the pieces before
the last together stay strictly below the cap. -/
def ChunkFromPieces (maxLen : Nat) (c : List Char) : Prop :=
  ∃ ps : List (List Char), c = joinParas ps ∧ ps ≠ [] ∧
    (∀ p ∈ ps, p ≠ [] ∧ p.length ≤ maxLen) ∧
    (ps.dropLast.map List.length).sum < maxLen

/-- A chunk emitted at a cap boundary: as `ChunkFromPieces`, and the total piece
length also reaches the cap. -/
def FullChunkFromPieces (maxLen : Nat) (c : List Char) : Prop :=
  ∃ ps : List (List Char), c = joinParas ps ∧ ps ≠ [] ∧
    (∀ p ∈ ps, p ≠ [] ∧ p.length ≤ maxLen) ∧
    (ps.dropLast.map List.length).sum < maxLen ∧
    maxLen ≤ (ps.map List.length).sum

theorem fullChunk_toChunk (maxLen : Nat) (c : List Char)
    (h : FullChunkFromPieces maxLen c) : ChunkFromPieces maxLen c := by
  obtain ⟨ps, h1, h2, h3, h4, _⟩ := h
  exact ⟨ps, h1, h2, h3, h4⟩

theorem sliceLoopFuel_inv (maxLen : Nat) (hm : 0 < maxLen) (fuel : Nat) :
    ∀ (p : List Char) (buf : List (List Char)) (len : Nat),
    BufInv maxLen buf len → (p.length ≤ fuel ∨ p.length ≤ maxLen) →
    (∀ c ∈ (sliceLoopFuel maxLen fuel p buf len).1, FullChunkFromPieces maxLen c) ∧
    BufInv maxLen (sliceLoopFuel maxLen fuel p buf len).2.1
      (sliceLoopFuel maxLen fuel p buf len).2.2.1 ∧
    (sliceLoopFuel maxLen fuel p buf len).2.2.2.length ≤ maxLen ∧
    (p ≠ [] → (sliceLoopFuel maxLen fuel p buf len).2.2.2 ≠ []) := by
  induction fuel with
  | zero =>
    intro p buf len hb hf
    have hp : p.length ≤ maxLen := by
      rcases hf with hf | hf
      · omega
      · exact hf
    simp only [sliceLoopFuel]
    exact ⟨by simp, hb, hp, fun h => h⟩
  | succ fuel ih =>
    intro p buf len hb hf
    by_cases hguard : maxLen < p.length ∧ 0 < maxLen
    · have htake : (p.take maxLen).length = maxLen := by
        rw [List.length_take]; omega
      have hcond : maxLen ≤ len + (p.take maxLen).length := by
        rw [htake]; omega
      have hrecfuel : (p.drop maxLen).length ≤ fuel ∨
          (p.drop maxLen).length ≤ maxLen := by
        rcases hf with hf | hf
        · left; rw [List.length_drop]; omega
        · exfalso; omega
      have hrec := ih (p.drop maxLen) [] 0 ⟨rfl, hm, by simp⟩ hrecfuel
      simp only [sliceLoopFuel, if_pos hguard, if_pos hcond]
      refine ⟨?_, hrec.2.1, hrec.2.2.1, ?_⟩
      · intro c hc
        rcases List.mem_cons.mp hc with rfl | hc2
        · refine ⟨buf ++ [p.take maxLen], rfl, by simp, ?_, ?_, ?_⟩
          · intro q hq
            rcases List.mem_append.mp hq with hq | hq
            · exact hb.2.2 q hq
            · rw [List.mem_singleton] at hq; subst hq
              refine ⟨?_, le_of_eq htake⟩
              intro habs
              have hl := congrArg List.length habs
              rw [htake] at hl
              simp at hl
              omega
          · have hdl : (buf ++ [p.take maxLen]).dropLast = buf := by
              simp
            rw [hdl, ← hb.1]
            exact hb.2.1
          · rw [List.map_append, List.sum_append]
            simp only [List.map_cons, List.map_nil, List.sum_cons, List.sum_nil]
            rw [htake, ← hb.1]
            omega
        · exact hrec.1 c hc2
      · intro _
        apply hrec.2.2.2
        intro habs
        have hl := congrArg List.length habs
        rw [List.length_drop] at hl
        simp at hl
        omega
    · have hp : p.length ≤ maxLen := by
        rcases not_and_or.mp hguard with h | h
        · omega
        · exact absurd hm h
      simp only [sliceLoopFuel, if_neg hguard]
      exact ⟨by simp, hb, hp, fun h => h⟩

/-- Invariant of the paragraph fold state: every emitted chunk reached the cap,
and the buffer satisfies `BufInv`. -/
def StateInv (maxLen : Nat) (st : List (List Char) × List (List Char) × Nat) :
    Prop :=
  (∀ c ∈ st.1, FullChunkFromPieces maxLen c) ∧ BufInv maxLen st.2.1 st.2.2

theorem paraStep_inv (maxLen : Nat) (hm : 0 < maxLen)
    (st : List (List Char) × List (List Char) × Nat) (para : List Char)
    (h : StateInv maxLen st) : StateInv maxLen (paraStep maxLen st para) := by
  obtain ⟨cs, buf, len⟩ := st
  obtain ⟨hcs, hb⟩ := h
  by_cases hp : (pyStripL para).isEmpty
  · simpa only [paraStep, if_pos hp] using ⟨hcs, hb⟩
  · have hpne : pyStripL para ≠ [] := by
      intro habs; rw [habs] at hp; exact hp rfl
    have hslice := sliceLoopFuel_inv maxLen hm (pyStripL para).length
      (pyStripL para) buf len hb (Or.inl le_rfl)
    simp only [paraStep, if_neg hp]
    rcases hres : sliceLoopFuel maxLen (pyStripL para).length (pyStripL para) buf len
      with ⟨cs1, buf1, len1, rest⟩
    rw [hres] at hslice
    dsimp only at hslice
    obtain ⟨hcs1, hb1, hrestlen, hrestne⟩ := hslice
    by_cases hemit : maxLen ≤ len1 + rest.length
    · rw [if_pos hemit]
      refine ⟨?_, rfl, hm, by simp⟩
      intro c hc
      rcases List.mem_append.mp hc with hc | hc
      · rcases List.mem_append.mp hc with hc | hc
        · exact hcs c hc
        · exact hcs1 c hc
      · rw [List.mem_singleton] at hc; subst hc
        refine ⟨buf1 ++ [rest], rfl, by simp, ?_, ?_, ?_⟩
        · intro q hq
          rcases List.mem_append.mp hq with hq | hq
          · exact hb1.2.2 q hq
          · rw [List.mem_singleton] at hq; subst hq
            exact ⟨hrestne hpne, hrestlen⟩
        · have hdl : (buf1 ++ [rest]).dropLast = buf1 := by simp
          rw [hdl, ← hb1.1]
          exact hb1.2.1
        · rw [List.map_append, List.sum_append]
          simp only [List.map_cons, List.map_nil, List.sum_cons, List.sum_nil]
          rw [← hb1.1]
          omega
    · rw [if_neg hemit]
      push_neg at hemit
      refine ⟨?_, ?_, hemit, ?_⟩
      · intro c hc
        rcases List.mem_append.mp hc with hc | hc
        · exact hcs c hc
        · exact hcs1 c hc
      · rw [List.map_append, List.sum_append]
        simp only [List.map_cons, List.map_nil, List.sum_cons, List.sum_nil]
        have := hb1.1
        omega
      · intro q hq
        rcases List.mem_append.mp hq with hq | hq
        · exact hb1.2.2 q hq
        · rw [List.mem_singleton] at hq; subst hq
          exact ⟨hrestne hpne, hrestlen⟩

theorem foldl_paraStep_inv (maxLen : Nat) (hm : 0 < maxLen)
    (paras : List (List Char)) (st : List (List Char) × List (List Char) × Nat)
    (h : StateInv maxLen st) :
    StateInv maxLen (paras.foldl (paraStep maxLen) st) := by
  induction paras generalizing st with
  | nil => exact h
  | cons p rest ih => exact ih _ (paraStep_inv maxLen hm st p h)

theorem mem_of_mem_dropLast' {α : Type} {l : List α} {a : α}
    (h : a ∈ l.dropLast) : a ∈ l := by
  induction l with
  | nil => simp at h
  | cons x rest ih =>
    cases rest with
    | nil => simp at h
    | cons y t =>
      rw [List.dropLast_cons₂, List.mem_cons] at h
      rcases h with h | h
      · exact h ▸ List.mem_cons_self x (y :: t)
      · exact List.mem_cons_of_mem x (ih (by simpa using h))

/-- C6 (amended): every chunk emitted by `_split_into_chunks` is the "\n\n"-join
of a non-empty list of pieces — whole stripped paragraphs or cap-sized hard
slices — each non-empty and of length at most the cap, with the pieces before
the last totalling strictly below the cap; hence, counting characters the way
the source's length accounting does (without the inserted two-character
separators), a chunk exceeds the cap by less than one piece and holds fewer
than `2 × cap` characters.  Every chunk except possibly the last also reaches
the cap in total piece length (a boundary never falls while the accumulated
piece length is below the cap).  The chunk *text* can still exceed the cap by
more than one paragraph's worth, because the separators are not counted — see
the counterexample. -/
theorem C6_chunk_bounds (text : List Char) (maxLen : Nat) (hm : 0 < maxLen) :
    (∀ c ∈ split_into_chunks text maxLen, ChunkFromPieces maxLen c) ∧
    (∀ c ∈ (split_into_chunks text maxLen).dropLast,
      FullChunkFromPieces maxLen c) ∧
    (∀ c, ChunkFromPieces maxLen c →
      ∃ ps : List (List Char), c = joinParas ps ∧
        (ps.map List.length).sum < 2 * maxLen) := by
  have hinit : StateInv maxLen ([], [], 0) := ⟨by simp, rfl, hm, by simp⟩
  have hfold := foldl_paraStep_inv maxLen hm (splitParas text) ([], [], 0) hinit
  rcases hres : (splitParas text).foldl (paraStep maxLen) ([], [], 0)
    with ⟨cs, buf, len⟩
  rw [hres] at hfold
  simp only [StateInv, BufInv] at hfold
  obtain ⟨hcs, hb1, hb2, hb3⟩ := hfold
  have hsplit : split_into_chunks text maxLen
      = cs ++ (if buf.isEmpty then [] else [joinParas buf]) := by
    unfold split_into_chunks
    rw [hres]
  refine ⟨?_, ?_, ?_⟩
  · intro c hc
    rw [hsplit] at hc
    rcases List.mem_append.mp hc with hc | hc
    · exact fullChunk_toChunk _ _ (hcs c hc)
    · by_cases hbe : buf.isEmpty
      · rw [if_pos hbe] at hc
        simp at hc
      · rw [if_neg hbe, List.mem_singleton] at hc
        subst hc
        have hbne : buf ≠ [] := by
          intro habs; rw [habs] at hbe; exact hbe rfl
        refine ⟨buf, rfl, hbne, hb3, ?_⟩
        have hsub : (buf.dropLast.map List.length).sum
            ≤ (buf.map List.length).sum := by
          conv_rhs => rw [← List.dropLast_append_getLast hbne]
          rw [List.map_append, List.sum_append]
          exact Nat.le_add_right _ _
        omega
  · intro c hc
    rw [hsplit] at hc
    by_cases hbe : buf.isEmpty
    · rw [if_pos hbe, List.append_nil] at hc
      exact hcs c (mem_of_mem_dropLast' hc)
    · rw [if_neg hbe] at hc
      have hdl : (cs ++ [joinParas buf]).dropLast = cs := by simp
      rw [hdl] at hc
      exact hcs c hc
  · intro c hchunk
    obtain ⟨ps, hc, hne, hpieces, hdl⟩ := hchunk
    refine ⟨ps, hc, ?_⟩
    have hlast := hpieces (ps.getLast hne) (List.getLast_mem hne)
    conv_lhs => rw [← List.dropLast_append_getLast hne]
    rw [List.map_append, List.sum_append]
    simp only [List.map_cons, List.map_nil, List.sum_cons, List.sum_nil]
    omega

/-- Witness for C6 (amended) at a concrete input and cap: the single chunk the
splitter emits for the two-character input is a well-formed chunk for cap 3. -/
theorem C6_chunk_bounds_witness : ChunkFromPieces 3 ['a', 'b'] :=
  (C6_chunk_bounds ['a', 'b'] 3 (by decide)).1 ['a', 'b']
    (by rw [show split_into_chunks ['a', 'b'] 3 = [['a', 'b']] from rfl]
        exact List.mem_singleton_self _)

theorem splitParasFuel_nil (fuel : Nat) (acc : List Char) :
    splitParasFuel fuel [] acc = [acc.reverse] := by
  cases fuel with
  | zero => simp [splitParasFuel]
  | succ fuel => rfl

theorem joinParas_replicate_succ (k : Nat) (hk : 1 ≤ k) :
    joinParas (List.replicate (k + 1) ['a'])
      = 'a' :: '\n' :: '\n' :: joinParas (List.replicate k ['a']) := by
  obtain ⟨j, rfl⟩ : ∃ j, k = j + 1 := ⟨k - 1, by omega⟩
  simp only [joinParas, List.replicate_succ]
  rw [List.intersperse_cons₂]
  simp

theorem joinParas_replicate_head (k : Nat) (hk : 1 ≤ k) :
    ∃ t, joinParas (List.replicate k ['a']) = 'a' :: t := by
  obtain ⟨j, rfl⟩ : ∃ j, k = j + 1 := ⟨k - 1, by omega⟩
  cases j with
  | zero => exact ⟨[], rfl⟩
  | succ i =>
    exact ⟨_, joinParas_replicate_succ (i + 1) (by omega)⟩

theorem joinParas_replicate_length (k : Nat) (hk : 1 ≤ k) :
    (joinParas (List.replicate k ['a'])).length = 3 * k - 2 := by
  induction k with
  | zero => omega
  | succ k ih =>
    cases Nat.eq_or_lt_of_le hk with
    | inl h => rw [← h]; rfl
    | inr h =>
      have hk1 : 1 ≤ k := by omega
      rw [joinParas_replicate_succ k hk1]
      simp only [List.length_cons]
      rw [ih hk1]
      omega

theorem splitParasFuel_replicate (k : Nat) :
    ∀ fuel : Nat,
    splitParasFuel (2 * k + 1 + fuel) (joinParas (List.replicate (k + 1) ['a'])) []
      = List.replicate (k + 1) ['a'] := by
  induction k with
  | zero =>
    intro fuel
    have h1 : joinParas (List.replicate 1 ['a']) = ['a'] := rfl
    rw [h1]
    have h2 : 2 * 0 + 1 + fuel = fuel + 1 := by omega
    rw [h2]
    show splitParasFuel fuel [] ['a'] = [['a']]
    rw [splitParasFuel_nil]
    rfl
  | succ k ih =>
    intro fuel
    rw [joinParas_replicate_succ (k + 1) (by omega)]
    have h2 : 2 * (k + 1) + 1 + fuel = (2 * k + 1 + fuel) + 1 + 1 := by omega
    rw [h2]
    show splitParasFuel ((2 * k + 1 + fuel) + 1)
        ('\n' :: '\n' :: joinParas (List.replicate (k + 1) ['a'])) ['a']
      = List.replicate (k + 1 + 1) ['a']
    obtain ⟨t, ht⟩ := joinParas_replicate_head (k + 1) (by omega)
    rw [ht]
    show ['a'].reverse ::
        splitParasFuel (2 * k + 1 + fuel) (('a' :: t).dropWhile (· == '\n')) []
      = List.replicate (k + 1 + 1) ['a']
    have hdw : ('a' :: t).dropWhile (· == '\n') = 'a' :: t := by
      rw [List.dropWhile_cons]
      simp
    rw [hdw, ← ht, ih fuel]
    rfl

theorem paraStep_single_a (cs buf : List (List Char)) (len : Nat) :
    paraStep 1200 (cs, buf, len) ['a']
      = if 1200 ≤ len + 1 then (cs ++ [joinParas (buf ++ [['a']])], [], 0)
        else (cs, buf ++ [['a']], len + 1) := by
  show (if 1200 ≤ len + 1 then (cs ++ [] ++ [joinParas (buf ++ [['a']])], [], 0)
        else (cs ++ [], buf ++ [['a']], len + 1))
      = if 1200 ≤ len + 1 then (cs ++ [joinParas (buf ++ [['a']])], [], 0)
        else (cs, buf ++ [['a']], len + 1)
  split_ifs <;> simp

theorem foldl_single_a (k : Nat) :
    ∀ (j : Nat) (cs : List (List Char)), j + k = 1200 → 1 ≤ k →
    (List.replicate k ['a']).foldl (paraStep 1200) (cs, List.replicate j ['a'], j)
      = (cs ++ [joinParas (List.replicate 1200 ['a'])], [], 0) := by
  induction k with
  | zero => intro j cs h h1; omega
  | succ k ih =>
    intro j cs hsum hk
    rw [List.replicate_succ, List.foldl_cons, paraStep_single_a]
    by_cases hk0 : k = 0
    · subst hk0
      have hj : j = 1199 := by omega
      subst hj
      rw [if_pos (by omega)]
      have hrep : List.replicate 1199 ['a'] ++ [['a']]
          = List.replicate 1200 ['a'] := (List.replicate_succ' ..).symm
      rw [hrep]
      rfl
    · rw [if_neg (by omega)]
      have hrep : List.replicate j ['a'] ++ [['a']]
          = List.replicate (j + 1) ['a'] := (List.replicate_succ' ..).symm
      rw [hrep]
      exact ih (j + 1) cs (by omega) (by omega)

theorem split_chunks_allSingleParas :
    split_into_chunks (joinParas (List.replicate 1200 ['a'])) 1200
      = [joinParas (List.replicate 1200 ['a'])] := by
  have hparas : splitParas (joinParas (List.replicate 1200 ['a']))
      = List.replicate 1200 ['a'] := by
    unfold splitParas
    rw [joinParas_replicate_length 1200 (by omega)]
    have h1 : 3 * 1200 - 2 = 2 * 1199 + 1 + 1199 := by omega
    rw [h1]
    exact splitParasFuel_replicate 1199 1199
  unfold split_into_chunks
  rw [hparas]
  have hfold := foldl_single_a 1200 0 [] (by omega) (by omega)
  simp only [List.replicate_zero] at hfold
  rw [hfold]
  rfl

/-- The C6 claim as stated, formalized at a concrete input with the most
generous reading of "one paragraph's worth": every chunk's text (separator
characters included) stays within the 1200-character cap plus one further
cap-sized slice plus one two-character separator. -/
def chunkTextWithinClaimBound (text : List Char) : Prop :=
  ∀ c ∈ split_into_chunks text 1200, c.length ≤ 1200 + 1200 + 2

/-- Counterexample to C6 as stated: on 1200 one-character paragraphs the
splitter emits a single chunk of 3598 characters — the 1200 characters its
length accounting counts plus 2 × 1199 separator characters — exceeding the cap
by far more than one paragraph's worth (the paragraphs have one character
each). -/
theorem C6_counterexample :
    ¬ chunkTextWithinClaimBound (joinParas (List.replicate 1200 ['a'])) := by
  intro h
  have hc := h (joinParas (List.replicate 1200 ['a']))
    (by rw [split_chunks_allSingleParas]; exact List.mem_singleton_self _)
  rw [joinParas_replicate_length 1200 (by omega)] at hc
  omega
